import Mathlib

/-!
Verification of the wallet-marker script (src/import_wallet.py).

The script is a straight-line procedure: it resolves the path
"~/.dig/wallets/test-wallet" via os.path.expanduser, creates that
directory chain with os.makedirs(..., exist_ok=True), writes the constant
MNEMONIC string to mnemonic.txt inside it, and prints status lines.

The embedding models the filesystem as a function from paths (lists of
path components) to optional entries (directory, or file with string
contents).  The environment carries the resolved home directory when one
can be determined; os.path.expanduser returns its argument unchanged when
the home directory cannot be resolved, which the model mirrors.  An
uncaught error is represented by a some-valued err field in the result; at
the process level it corresponds to a non-zero exit status, while err =
none corresponds to exit status 0.
-/

namespace ImportWallet

/-- A filesystem path, as its list of components. -/
abbrev Path := List String

/-- A filesystem entry: a directory, or a regular file with its contents. -/
inductive Entry where
  | dir : Entry
  | file : String → Entry
deriving DecidableEq

/-- The filesystem state: a map from paths to optional entries. -/
structure FS where
  entries : Path → Option Entry

/-- Point update of the filesystem map. -/
def FS.update (fs : FS) (p : Path) (e : Entry) : FS :=
  ⟨fun r => if r = p then some e else fs.entries r⟩

/-- Errors raised by filesystem operations (uncaught Python OSError kinds). -/
inductive FsError where
  | dirCreate : FsError
  | fileWrite : FsError
deriving DecidableEq

/-- The process environment: the resolved home directory of the user, when
one can be determined (HOME, or the password-database fallback). -/
structure Env where
  home : Option Path

/-- The seed phrase constant from line 8 of the script. -/
def MNEMONIC : String := "provide verb sheriff tragic arrow bless still empty gesture senior pause tobacco creek giggle pair crisp glow divide boost endless elite fiction cup arena"

/-- The fixed relative subpath under the home directory. -/
def relTail : Path := [".dig", "wallets", "test-wallet"]

/-- Model of os.path.expanduser applied to a tilde-path whose trailing
components are t.  When the home directory is resolvable the tilde is
replaced by it; otherwise expanduser returns the path unchanged, so the
literal component tilde stays at the front. -/
def expanduser (env : Env) (t : Path) : Path :=
  match env.home with
  | some h => h ++ t
  | none => "~" :: t

/-- The wallet directory computed on line 15 of the script. -/
def walletDir (env : Env) : Path := expanduser env relTail

/-- The path of the mnemonic marker file (line 19 of the script). -/
def mnemonicPath (env : Env) : Path := walletDir env ++ ["mnemonic.txt"]

/-- All nonempty initial segments of a path, shortest first: the chain of
directories os.makedirs walks through. -/
def initSegs : Path → List Path
  | [] => []
  | a :: as => [a] :: (initSegs as).map (a :: ·)

/-- Create one directory at path q, tolerating an already-existing
directory (the exist_ok=True behaviour of a single step): a missing entry
becomes a directory, an existing directory is accepted silently, and an
existing non-directory entry is an error. -/
def mkdirAt (fs : FS) (q : Path) : FS × Option FsError :=
  match fs.entries q with
  | none => (fs.update q Entry.dir, none)
  | some Entry.dir => (fs, none)
  | some (Entry.file _) => (fs, some FsError.dirCreate)

/-- Run mkdirAt along a list of paths, stopping at the first error but
keeping the directories created before it, as os.makedirs does on disk. -/
def makedirsGo : FS → List Path → FS × Option FsError
  | fs, [] => (fs, none)
  | fs, q :: qs =>
    match mkdirAt fs q with
    | (fs1, none) => makedirsGo fs1 qs
    | (fs1, some e) => (fs1, some e)

/-- Model of os.makedirs(p, exist_ok=True): create every missing initial
segment of p, shortest first (line 16 of the script). -/
def makedirs (fs : FS) (p : Path) : FS × Option FsError :=
  makedirsGo fs (initSegs p)

/-- Model of open(p, "w") followed by f.write(c): requires the parent
directory to exist as a directory and the target not to be a directory;
any existing file contents are truncated and replaced by c (lines 19-20). -/
def writeFile (fs : FS) (p : Path) (c : String) : FS × Option FsError :=
  if fs.entries p.dropLast = some Entry.dir then
    if fs.entries p = some Entry.dir then (fs, some FsError.fileWrite)
    else (fs.update p (Entry.file c), none)
  else (fs, some FsError.fileWrite)

/-- Render a path the way the script interpolates wallet_dir into its
status message: components joined by the path separator. -/
def pathStr (p : Path) : String := String.intercalate "/" p

/-- The announcement printed on line 11, before any filesystem step. -/
def startMsg : String := "Importing wallet with provided mnemonic..."

/-- The confirmation printed on line 22, containing the directory path. -/
def doneMsg1 (w : Path) : String := "Created wallet marker at: " ++ pathStr w

/-- The confirmation printed on line 23. -/
def doneMsg2 : String := "Mnemonic saved for testing purposes"

/-- The observable outcome of a run: the lines written to standard output,
the final filesystem, and the uncaught error if one was raised (a
some-valued err terminates the process with a non-zero exit status). -/
structure Result where
  out : List String
  fs : FS
  err : Option FsError

/-- The main procedure of the script (lines 10-23): print the
announcement, resolve the wallet directory, create it, write the mnemonic
file, and print the two confirmation lines.  An error in a filesystem step
propagates uncaught: later steps do not run and the confirmations are not
printed. -/
def main (env : Env) (fs : FS) : Result :=
  match makedirs fs (walletDir env) with
  | (fs1, some e) => ⟨[startMsg], fs1, some e⟩
  | (fs1, none) =>
    match writeFile fs1 (mnemonicPath env) MNEMONIC with
    | (fs2, some e) => ⟨[startMsg], fs2, some e⟩
    | (fs2, none) => ⟨[startMsg, doneMsg1 (walletDir env), doneMsg2], fs2, none⟩

/-! Helper lemmas about the single-directory step. -/

/-- Extensionality for the filesystem state. -/
theorem FS.ext_entries (a b : FS) (h : ∀ q, a.entries q = b.entries q) : a = b := by
  cases a with
  | mk f =>
    cases b with
    | mk g =>
      have : f = g := funext h
      rw [this]

theorem mkdirAt_entries_ne (fs : FS) (q r : Path) (h : r ≠ q) :
    (mkdirAt fs q).1.entries r = fs.entries r := by
  unfold mkdirAt
  cases hq : fs.entries q with
  | none => simp [FS.update, h]
  | some e => cases e <;> simp

theorem mkdirAt_preserves_dir (fs : FS) (q r : Path)
    (h : fs.entries r = some Entry.dir) :
    (mkdirAt fs q).1.entries r = some Entry.dir := by
  unfold mkdirAt
  cases hq : fs.entries q with
  | none =>
    simp only [FS.update]
    split
    · rfl
    · exact h
  | some e => cases e <;> simpa

theorem mkdirAt_file_iff (fs : FS) (q r : Path) (c : String) :
    (mkdirAt fs q).1.entries r = some (Entry.file c) ↔
      fs.entries r = some (Entry.file c) := by
  unfold mkdirAt
  cases hq : fs.entries q with
  | none =>
    simp only [FS.update]
    split
    · rename_i hr
      subst hr
      rw [hq]
      simp
    · exact Iff.rfl
  | some e => cases e <;> simp

theorem mkdirAt_ok_entry (fs : FS) (q : Path)
    (h : (mkdirAt fs q).2 = none) :
    (mkdirAt fs q).1.entries q = some Entry.dir := by
  unfold mkdirAt at h ⊢
  cases hq : fs.entries q with
  | none => simp [FS.update]
  | some e =>
    cases e with
    | dir => simpa
    | file c => rw [hq] at h; simp at h

theorem mkdirAt_err_iff (fs : FS) (q : Path) :
    (mkdirAt fs q).2 ≠ none ↔ ∃ c, fs.entries q = some (Entry.file c) := by
  unfold mkdirAt
  cases hq : fs.entries q with
  | none => simp
  | some e => cases e <;> simp

theorem mkdirAt_dir_noop (fs : FS) (q : Path)
    (h : fs.entries q = some Entry.dir) :
    mkdirAt fs q = (fs, none) := by
  unfold mkdirAt
  rw [h]

/-! Helper lemmas about the directory-chain creation loop. -/

theorem makedirsGo_not_mem (l : List Path) :
    ∀ (fs : FS) (r : Path), r ∉ l →
      (makedirsGo fs l).1.entries r = fs.entries r := by
  induction l with
  | nil => intro fs r _; rfl
  | cons a as ih =>
    intro fs r h
    simp only [List.mem_cons, not_or] at h
    obtain ⟨h1, h2⟩ := h
    simp only [makedirsGo]
    rcases hm : mkdirAt fs a with ⟨fs1, o⟩
    have hne := mkdirAt_entries_ne fs a r h1
    rw [hm] at hne
    cases o with
    | none =>
      rw [ih fs1 r h2]
      exact hne
    | some e => exact hne

theorem makedirsGo_preserves_dir (l : List Path) :
    ∀ (fs : FS) (r : Path), fs.entries r = some Entry.dir →
      (makedirsGo fs l).1.entries r = some Entry.dir := by
  induction l with
  | nil => intro fs r h; exact h
  | cons a as ih =>
    intro fs r h
    simp only [makedirsGo]
    rcases hm : mkdirAt fs a with ⟨fs1, o⟩
    have hp := mkdirAt_preserves_dir fs a r h
    rw [hm] at hp
    cases o with
    | none => exact ih fs1 r hp
    | some e => exact hp

theorem makedirsGo_file_iff (l : List Path) :
    ∀ (fs : FS) (r : Path) (c : String),
      (makedirsGo fs l).1.entries r = some (Entry.file c) ↔
        fs.entries r = some (Entry.file c) := by
  induction l with
  | nil => intro fs r c; exact Iff.rfl
  | cons a as ih =>
    intro fs r c
    simp only [makedirsGo]
    rcases hm : mkdirAt fs a with ⟨fs1, o⟩
    have hf := mkdirAt_file_iff fs a r c
    rw [hm] at hf
    cases o with
    | none => exact (ih fs1 r c).trans hf
    | some e => exact hf

theorem makedirsGo_ok_mem (l : List Path) :
    ∀ (fs : FS) (q : Path), (makedirsGo fs l).2 = none → q ∈ l →
      (makedirsGo fs l).1.entries q = some Entry.dir := by
  induction l with
  | nil =>
    intro fs q _ hq
    exact absurd hq (List.not_mem_nil q)
  | cons a as ih =>
    intro fs q hok hq
    simp only [makedirsGo] at hok ⊢
    rcases hm : mkdirAt fs a with ⟨fs1, o⟩
    rw [hm] at hok
    cases o with
    | some e => simp at hok
    | none =>
      rcases List.mem_cons.mp hq with h | h
      · subst h
        have h1 := mkdirAt_ok_entry fs q (by rw [hm])
        rw [hm] at h1
        exact makedirsGo_preserves_dir as fs1 q h1
      · exact ih fs1 q hok h

theorem makedirsGo_err_iff (l : List Path) :
    ∀ fs : FS, (makedirsGo fs l).2 ≠ none ↔
      ∃ q ∈ l, ∃ c, fs.entries q = some (Entry.file c) := by
  induction l with
  | nil => intro fs; simp [makedirsGo]
  | cons a as ih =>
    intro fs
    simp only [makedirsGo]
    rcases hm : mkdirAt fs a with ⟨fs1, o⟩
    cases o with
    | some e =>
      have ha : ∃ c, fs.entries a = some (Entry.file c) :=
        (mkdirAt_err_iff fs a).1 (by rw [hm]; simp)
      constructor
      · intro _
        exact ⟨a, List.mem_cons_self a as, ha⟩
      · intro _
        simp
    | none =>
      rw [ih fs1]
      constructor
      · rintro ⟨q, hq, c, hc⟩
        have := (mkdirAt_file_iff fs a q c).1 (by rw [hm]; exact hc)
        exact ⟨q, List.mem_cons_of_mem a hq, c, this⟩
      · rintro ⟨q, hq, c, hc⟩
        rcases List.mem_cons.mp hq with h | h
        · subst h
          have hbad : (mkdirAt fs q).2 ≠ none :=
            (mkdirAt_err_iff fs q).2 ⟨c, hc⟩
          rw [hm] at hbad
          simp at hbad
        · have := (mkdirAt_file_iff fs a q c).2 hc
          rw [hm] at this
          exact ⟨q, h, c, this⟩

theorem makedirsGo_dirs_noop (l : List Path) :
    ∀ fs : FS, (∀ q ∈ l, fs.entries q = some Entry.dir) →
      makedirsGo fs l = (fs, none) := by
  induction l with
  | nil => intro fs _; rfl
  | cons a as ih =>
    intro fs h
    simp only [makedirsGo]
    rw [mkdirAt_dir_noop fs a (h a (List.mem_cons_self a as))]
    exact ih fs (fun q hq => h q (List.mem_cons_of_mem a hq))

/-! Helper lemmas about the file-write step. -/

theorem writeFile_ok_iff (fs : FS) (p : Path) (c : String) :
    (writeFile fs p c).2 = none ↔
      fs.entries p.dropLast = some Entry.dir ∧ fs.entries p ≠ some Entry.dir := by
  unfold writeFile
  split_ifs with h1 h2
  · simp [h1, h2]
  · simp [h1, h2]
  · simp [h1]

theorem writeFile_ok_self (fs : FS) (p : Path) (c : String)
    (h : (writeFile fs p c).2 = none) :
    (writeFile fs p c).1.entries p = some (Entry.file c) := by
  have hok := (writeFile_ok_iff fs p c).1 h
  unfold writeFile
  rw [if_pos hok.1, if_neg hok.2]
  simp [FS.update]

theorem writeFile_entries_ne (fs : FS) (p : Path) (c : String) (r : Path)
    (h : r ≠ p) :
    (writeFile fs p c).1.entries r = fs.entries r := by
  unfold writeFile
  split_ifs <;> simp [FS.update, h]

theorem writeFile_err_fst (fs : FS) (p : Path) (c : String) (e : FsError)
    (h : (writeFile fs p c).2 = some e) :
    (writeFile fs p c).1 = fs := by
  unfold writeFile at h ⊢
  split_ifs with h1 h2
  · rfl
  · rw [if_pos h1, if_neg h2] at h
    simp at h
  · rfl

theorem writeFile_noop (fs : FS) (p : Path) (c : String)
    (hp : fs.entries p.dropLast = some Entry.dir)
    (hc : fs.entries p = some (Entry.file c)) :
    writeFile fs p c = (fs, none) := by
  unfold writeFile
  rw [if_pos hp, if_neg (by rw [hc]; simp)]
  have hupd : fs.update p (Entry.file c) = fs := by
    apply FS.ext_entries
    intro q
    unfold FS.update
    by_cases hq : q = p
    · subst hq
      simp [hc]
    · simp [hq]
  rw [hupd]

/-! Helper lemmas about initial segments of paths. -/

theorem initSegs_length_le (p : Path) :
    ∀ q ∈ initSegs p, q.length ≤ p.length := by
  induction p with
  | nil => intro q hq; simp [initSegs] at hq
  | cons a as ih =>
    intro q hq
    simp only [initSegs, List.mem_cons, List.mem_map] at hq
    rcases hq with h | ⟨q0, hq0, rfl⟩
    · subst h
      simp
    · have := ih q0 hq0
      simp
      omega

theorem self_mem_initSegs (p : Path) (h : p ≠ []) : p ∈ initSegs p := by
  induction p with
  | nil => exact absurd rfl h
  | cons a as ih =>
    by_cases has : as = []
    · subst has
      simp [initSegs]
    · simp only [initSegs, List.mem_cons, List.mem_map]
      right
      exact ⟨as, ih has, rfl⟩

theorem walletDir_ne_nil (env : Env) : walletDir env ≠ [] := by
  unfold walletDir expanduser relTail
  cases env.home <;> simp

theorem mnemonicPath_dropLast (env : Env) :
    (mnemonicPath env).dropLast = walletDir env := by
  unfold mnemonicPath
  simp

theorem mnemonicPath_not_initSeg (env : Env) :
    mnemonicPath env ∉ initSegs (walletDir env) := by
  intro h
  have hle := initSegs_length_le (walletDir env) (mnemonicPath env) h
  unfold mnemonicPath at hle
  simp at hle

/-! Helper lemmas unfolding the main procedure. -/

theorem main_ok_spec (env : Env) (fs : FS) (h : (main env fs).err = none) :
    (makedirs fs (walletDir env)).2 = none ∧
    (writeFile (makedirs fs (walletDir env)).1 (mnemonicPath env) MNEMONIC).2 = none ∧
    main env fs =
      ⟨[startMsg, doneMsg1 (walletDir env), doneMsg2],
       (writeFile (makedirs fs (walletDir env)).1 (mnemonicPath env) MNEMONIC).1,
       none⟩ := by
  obtain ⟨fs1, o1, hmk⟩ : ∃ a b, makedirs fs (walletDir env) = (a, b) :=
    ⟨_, _, rfl⟩
  simp only [main, hmk] at h
  cases o1 with
  | some e => simp at h
  | none =>
    obtain ⟨fs2, o2, hwr⟩ :
        ∃ a b, writeFile fs1 (mnemonicPath env) MNEMONIC = (a, b) :=
      ⟨_, _, rfl⟩
    simp only [hwr] at h
    cases o2 with
    | some e => simp at h
    | none =>
      refine ⟨by rw [hmk], by simp [hmk, hwr], ?_⟩
      simp [main, hmk, hwr]

theorem main_mkErr_spec (env : Env) (fs : FS)
    (h : (makedirs fs (walletDir env)).2 ≠ none) :
    main env fs =
      ⟨[startMsg], (makedirs fs (walletDir env)).1,
       (makedirs fs (walletDir env)).2⟩ := by
  obtain ⟨fs1, o1, hmk⟩ : ∃ a b, makedirs fs (walletDir env) = (a, b) :=
    ⟨_, _, rfl⟩
  rw [hmk] at h
  cases o1 with
  | some e => simp [main, hmk]
  | none => simp at h

theorem main_err_out (env : Env) (fs : FS) (h : (main env fs).err ≠ none) :
    (main env fs).out = [startMsg] := by
  obtain ⟨fs1, o1, hmk⟩ : ∃ a b, makedirs fs (walletDir env) = (a, b) :=
    ⟨_, _, rfl⟩
  simp only [main, hmk] at h ⊢
  cases o1 with
  | some e => simp
  | none =>
    obtain ⟨fs2, o2, hwr⟩ :
        ∃ a b, writeFile fs1 (mnemonicPath env) MNEMONIC = (a, b) :=
      ⟨_, _, rfl⟩
    simp only [hwr] at h ⊢
    cases o2 with
    | some e => simp
    | none => simp at h

/-! Lemmas about makedirs, specialized from the loop lemmas. -/

theorem makedirs_not_initSeg (fs : FS) (p r : Path) (h : r ∉ initSegs p) :
    (makedirs fs p).1.entries r = fs.entries r :=
  makedirsGo_not_mem (initSegs p) fs r h

theorem makedirs_ok_mem (fs : FS) (p q : Path)
    (hok : (makedirs fs p).2 = none) (hq : q ∈ initSegs p) :
    (makedirs fs p).1.entries q = some Entry.dir :=
  makedirsGo_ok_mem (initSegs p) fs q hok hq

theorem makedirs_err_iff (fs : FS) (p : Path) :
    (makedirs fs p).2 ≠ none ↔
      ∃ q ∈ initSegs p, ∃ c, fs.entries q = some (Entry.file c) :=
  makedirsGo_err_iff (initSegs p) fs

theorem makedirs_dirs_noop (fs : FS) (p : Path)
    (h : ∀ q ∈ initSegs p, fs.entries q = some Entry.dir) :
    makedirs fs p = (fs, none) :=
  makedirsGo_dirs_noop (initSegs p) fs h

theorem makedirs_file_iff (fs : FS) (p r : Path) (c : String) :
    (makedirs fs p).1.entries r = some (Entry.file c) ↔
      fs.entries r = some (Entry.file c) :=
  makedirsGo_file_iff (initSegs p) fs r c

/-- Characterization of the final filesystem of a successful run: the
whole directory chain of the wallet directory exists, the mnemonic file
holds exactly the MNEMONIC string, and every other path is untouched. -/
theorem main_ok_final_entries (env : Env) (fs : FS)
    (h : (main env fs).err = none) :
    (∀ q ∈ initSegs (walletDir env),
       (main env fs).fs.entries q = some Entry.dir) ∧
    (main env fs).fs.entries (mnemonicPath env) = some (Entry.file MNEMONIC) ∧
    (∀ r, r ∉ initSegs (walletDir env) → r ≠ mnemonicPath env →
       (main env fs).fs.entries r = fs.entries r) := by
  obtain ⟨hmk, hwr, hmain⟩ := main_ok_spec env fs h
  have hfs : (main env fs).fs =
      (writeFile (makedirs fs (walletDir env)).1 (mnemonicPath env) MNEMONIC).1 := by
    rw [hmain]
  refine ⟨?_, ?_, ?_⟩
  · intro q hq
    have hne : q ≠ mnemonicPath env := by
      intro he
      subst he
      exact mnemonicPath_not_initSeg env hq
    rw [hfs, writeFile_entries_ne _ _ _ _ hne]
    exact makedirs_ok_mem fs (walletDir env) q hmk hq
  · rw [hfs]
    exact writeFile_ok_self _ _ _ hwr
  · intro r hr hne
    rw [hfs, writeFile_entries_ne _ _ _ _ hne]
    exact makedirs_not_initSeg fs (walletDir env) r hr

/-! Concrete inputs used to instantiate the theorems. -/

/-- An environment whose home directory resolves to /tmp/fakehome. -/
def envT : Env := ⟨some ["tmp", "fakehome"]⟩

/-- The empty filesystem. -/
def fsEmpty : FS := ⟨fun _ => none⟩

/-- A filesystem in which the path component tmp is a regular file, so
directory creation below it must fail. -/
def fsBlocked : FS :=
  ⟨fun q => if q = ["tmp"] then some (Entry.file "blocker") else none⟩

/-- A filesystem already holding a mnemonic marker with stale contents. -/
def fsStale : FS :=
  ⟨fun q =>
    if q = ["tmp", "fakehome", ".dig", "wallets", "test-wallet", "mnemonic.txt"]
    then some (Entry.file "old contents")
    else none⟩

/-- Success of both filesystem steps makes the whole run succeed. -/
theorem main_ok_intro (env : Env) (fs : FS)
    (h1 : (makedirs fs (walletDir env)).2 = none)
    (h2 : (writeFile (makedirs fs (walletDir env)).1 (mnemonicPath env)
            MNEMONIC).2 = none) :
    (main env fs).err = none := by
  obtain ⟨fs1, o1, hmk⟩ : ∃ a b, makedirs fs (walletDir env) = (a, b) :=
    ⟨_, _, rfl⟩
  have hmk1 : (makedirs fs (walletDir env)).1 = fs1 := by rw [hmk]
  rw [hmk] at h1
  rw [hmk1] at h2
  cases o1 with
  | some e => simp at h1
  | none =>
    obtain ⟨fs2, o2, hwr⟩ :
        ∃ a b, writeFile fs1 (mnemonicPath env) MNEMONIC = (a, b) :=
      ⟨_, _, rfl⟩
    rw [hwr] at h2
    cases o2 with
    | some e => simp at h2
    | none => simp [main, hmk, hwr]

/-! Claim theorems. -/

/-- C1: after a successful run with home directory H, the file at
H/.dig/wallets/test-wallet/mnemonic.txt exists and its entire contents
equal the configured MNEMONIC string, byte for byte, with nothing added
or missing. -/
theorem claim_content_fidelity (env : Env) (fs : FS)
    (h : (main env fs).err = none) :
    (main env fs).fs.entries (mnemonicPath env) =
      some (Entry.file MNEMONIC) :=
  (main_ok_final_entries env fs h).2.1

theorem claim_content_fidelity_witness :
    (main envT fsEmpty).err = none ∧
    (main envT fsEmpty).fs.entries (mnemonicPath envT) =
      some (Entry.file MNEMONIC) :=
  ⟨by decide, claim_content_fidelity envT fsEmpty (by decide)⟩

/-- C2 counterexample: there is a successful run whose standard output is
not exactly two lines: the script prints three lines. -/
theorem claim_two_lines_cex :
    (main envT fsEmpty).err = none ∧
    (main envT fsEmpty).out.length ≠ 2 := by
  decide

/-- C2 amended: on every successful run the procedure writes exactly
three lines of text to standard output, and the second of those three
lines includes the target directory path. -/
theorem claim_success_output_lines (env : Env) (fs : FS)
    (h : (main env fs).err = none) :
    (main env fs).out.length = 3 ∧
    ∃ a b, (main env fs).out[1]? =
      some (a ++ pathStr (walletDir env) ++ b) := by
  obtain ⟨-, -, hmain⟩ := main_ok_spec env fs h
  rw [hmain]
  refine ⟨rfl, "Created wallet marker at: ", "", ?_⟩
  simp [doneMsg1, String.append_empty]

theorem claim_success_output_lines_witness :
    (main envT fsEmpty).err = none ∧
    ((main envT fsEmpty).out.length = 3 ∧
     ∃ a b, (main envT fsEmpty).out[1]? =
       some (a ++ pathStr (walletDir envT) ++ b)) :=
  ⟨by decide, claim_success_output_lines envT fsEmpty (by decide)⟩

/-- C3 counterexample: with an unresolvable home directory the procedure
does not fail at the resolution step: starting from the empty filesystem
the run succeeds and even mutates the filesystem, creating a directory
literally named tilde. -/
theorem claim_home_error_cex :
    (main ⟨none⟩ fsEmpty).err = none ∧
    (main ⟨none⟩ fsEmpty).fs.entries ["~", ".dig", "wallets", "test-wallet"] =
      some Entry.dir := by
  decide

/-- C3 amended: if the home directory cannot be determined from the
environment, resolution raises no error: expanduser returns the tilde
path unchanged, and from a filesystem with no conflicting entries the
procedure runs to success, creating the literal tilde directory chain
and writing the mnemonic file inside it. -/
theorem claim_home_unresolved_succeeds (fs : FS)
    (h : ∀ q, fs.entries q = none) :
    (main ⟨none⟩ fs).err = none ∧
    (main ⟨none⟩ fs).fs.entries ["~", ".dig", "wallets", "test-wallet"] =
      some Entry.dir ∧
    (main ⟨none⟩ fs).fs.entries
        ["~", ".dig", "wallets", "test-wallet", "mnemonic.txt"] =
      some (Entry.file MNEMONIC) := by
  have hmk : (makedirs fs (walletDir ⟨none⟩)).2 = none := by
    by_contra hc
    obtain ⟨q, hq1, c, hq2⟩ := (makedirs_err_iff fs (walletDir ⟨none⟩)).1 hc
    rw [h q] at hq2
    exact Option.noConfusion hq2
  have hpar : (makedirs fs (walletDir ⟨none⟩)).1.entries (walletDir ⟨none⟩) =
      some Entry.dir :=
    makedirs_ok_mem _ _ _ hmk
      (self_mem_initSegs _ (walletDir_ne_nil ⟨none⟩))
  have htgt : (makedirs fs (walletDir ⟨none⟩)).1.entries
      (mnemonicPath ⟨none⟩) = none := by
    rw [makedirs_not_initSeg _ _ _ (mnemonicPath_not_initSeg ⟨none⟩)]
    exact h _
  have hwr : (writeFile (makedirs fs (walletDir ⟨none⟩)).1
      (mnemonicPath ⟨none⟩) MNEMONIC).2 = none := by
    rw [writeFile_ok_iff]
    constructor
    · rw [mnemonicPath_dropLast]
      exact hpar
    · rw [htgt]
      simp
  have herr := main_ok_intro ⟨none⟩ fs hmk hwr
  obtain ⟨hdirs, hfile, -⟩ := main_ok_final_entries ⟨none⟩ fs herr
  exact ⟨herr,
    hdirs _ (self_mem_initSegs _ (walletDir_ne_nil ⟨none⟩)), hfile⟩

theorem claim_home_unresolved_succeeds_witness :
    (∀ q, fsEmpty.entries q = none) ∧
    ((main ⟨none⟩ fsEmpty).err = none ∧
     (main ⟨none⟩ fsEmpty).fs.entries ["~", ".dig", "wallets", "test-wallet"] =
       some Entry.dir ∧
     (main ⟨none⟩ fsEmpty).fs.entries
         ["~", ".dig", "wallets", "test-wallet", "mnemonic.txt"] =
       some (Entry.file MNEMONIC)) :=
  ⟨fun _ => rfl, claim_home_unresolved_succeeds fsEmpty (fun _ => rfl)⟩

/-- C4: running the procedure a second time on the filesystem produced by
a successful run gives back exactly the same result: same output lines,
same filesystem, success again. -/
theorem claim_run_idempotent (env : Env) (fs : FS)
    (h : (main env fs).err = none) :
    main env (main env fs).fs = main env fs := by
  obtain ⟨hmk, hwr, hmain⟩ := main_ok_spec env fs h
  obtain ⟨hdirs, hfile, -⟩ := main_ok_final_entries env fs h
  have hw : (main env fs).fs.entries (walletDir env) = some Entry.dir :=
    hdirs _ (self_mem_initSegs _ (walletDir_ne_nil env))
  have h1 : makedirs (main env fs).fs (walletDir env) =
      ((main env fs).fs, none) :=
    makedirs_dirs_noop _ _ hdirs
  have h2 : writeFile (main env fs).fs (mnemonicPath env) MNEMONIC =
      ((main env fs).fs, none) :=
    writeFile_noop _ _ _ (by rw [mnemonicPath_dropLast]; exact hw) hfile
  have hfs2 : (main env fs).fs =
      (writeFile (makedirs fs (walletDir env)).1 (mnemonicPath env)
        MNEMONIC).1 := by
    rw [hmain]
  have hAux : ∀ g : FS, makedirs g (walletDir env) = (g, none) →
      writeFile g (mnemonicPath env) MNEMONIC = (g, none) →
      main env g =
        ⟨[startMsg, doneMsg1 (walletDir env), doneMsg2], g, none⟩ := by
    intro g hg1 hg2
    simp only [main, hg1, hg2]
  have hrun2 := hAux (main env fs).fs h1 h2
  rw [hrun2, hfs2]
  exact hmain.symm

theorem claim_run_idempotent_witness :
    (main envT fsEmpty).err = none ∧
    main envT (main envT fsEmpty).fs = main envT fsEmpty :=
  ⟨by decide, claim_run_idempotent envT fsEmpty (by decide)⟩

/-- C5: if the ensure-directory step fails, the run terminates with an
uncaught error (hence a non-zero exit status), and a mnemonic file that
was absent before the run is still absent afterwards: the write step is
never reached. -/
theorem claim_dir_failure_no_file (env : Env) (fs : FS)
    (hm : (makedirs fs (walletDir env)).2 ≠ none)
    (h0 : fs.entries (mnemonicPath env) = none) :
    (main env fs).err ≠ none ∧
    (main env fs).fs.entries (mnemonicPath env) = none := by
  have hmain := main_mkErr_spec env fs hm
  constructor
  · rw [hmain]
    exact hm
  · rw [hmain]
    show (makedirs fs (walletDir env)).1.entries (mnemonicPath env) = none
    rw [makedirs_not_initSeg _ _ _ (mnemonicPath_not_initSeg env)]
    exact h0

theorem claim_dir_failure_no_file_witness :
    ((makedirs fsBlocked (walletDir envT)).2 ≠ none ∧
     fsBlocked.entries (mnemonicPath envT) = none) ∧
    ((main envT fsBlocked).err ≠ none ∧
     (main envT fsBlocked).fs.entries (mnemonicPath envT) = none) :=
  ⟨⟨by decide, by decide⟩,
   claim_dir_failure_no_file envT fsBlocked (by decide) (by decide)⟩

/-- C6: whatever content the mnemonic file held before the run, after a
successful run it holds only the configured MNEMONIC string: the old
content is fully replaced, never appended to. -/
theorem claim_overwrite (env : Env) (fs : FS) (c : String)
    (_hold : fs.entries (mnemonicPath env) = some (Entry.file c))
    (h : (main env fs).err = none) :
    (main env fs).fs.entries (mnemonicPath env) =
      some (Entry.file MNEMONIC) :=
  (main_ok_final_entries env fs h).2.1

theorem claim_overwrite_witness :
    (fsStale.entries (mnemonicPath envT) =
       some (Entry.file "old contents") ∧
     (main envT fsStale).err = none) ∧
    (main envT fsStale).fs.entries (mnemonicPath envT) =
      some (Entry.file MNEMONIC) :=
  ⟨⟨by decide, by decide⟩,
   claim_overwrite envT fsStale "old contents" (by decide) (by decide)⟩

/-- C7: on a successful run the wallet directory exists in the filesystem
state the write step receives, the whole directory chain exists at the
end, and every path outside the created chain and the mnemonic file is
left exactly as it was, so pre-existing siblings are undisturbed. -/
theorem claim_dir_before_write (env : Env) (fs : FS)
    (h : (main env fs).err = none) :
    (makedirs fs (walletDir env)).1.entries (walletDir env) =
      some Entry.dir ∧
    (∀ q ∈ initSegs (walletDir env),
       (main env fs).fs.entries q = some Entry.dir) ∧
    (∀ r, r ∉ initSegs (walletDir env) → r ≠ mnemonicPath env →
       (main env fs).fs.entries r = fs.entries r) := by
  obtain ⟨hmk, -, -⟩ := main_ok_spec env fs h
  obtain ⟨hdirs, -, hrest⟩ := main_ok_final_entries env fs h
  exact ⟨makedirs_ok_mem _ _ _ hmk
      (self_mem_initSegs _ (walletDir_ne_nil env)), hdirs, hrest⟩

theorem claim_dir_before_write_witness :
    (main envT fsEmpty).err = none ∧
    ((makedirs fsEmpty (walletDir envT)).1.entries (walletDir envT) =
       some Entry.dir ∧
     (∀ q ∈ initSegs (walletDir envT),
        (main envT fsEmpty).fs.entries q = some Entry.dir) ∧
     (∀ r, r ∉ initSegs (walletDir envT) → r ≠ mnemonicPath envT →
        (main envT fsEmpty).fs.entries r = fsEmpty.entries r)) :=
  ⟨by decide, claim_dir_before_write envT fsEmpty (by decide)⟩

/-- C8: the ensure-directory operation is idempotent with respect to
errors: when the directory chain already exists as directories the call
returns without error and changes nothing, and it raises an error exactly
when some initial segment of the path exists as a non-directory file,
never because of prior existence of a directory. -/
theorem claim_makedirs_exist_ok (fs : FS) (p : Path) :
    ((∀ q ∈ initSegs p, fs.entries q = some Entry.dir) →
       makedirs fs p = (fs, none)) ∧
    ((makedirs fs p).2 ≠ none ↔
       ∃ q ∈ initSegs p, ∃ c, fs.entries q = some (Entry.file c)) :=
  ⟨makedirs_dirs_noop fs p, makedirs_err_iff fs p⟩

theorem claim_makedirs_exist_ok_witness :
    makedirs (main envT fsEmpty).fs (walletDir envT) =
      ((main envT fsEmpty).fs, none) :=
  (claim_makedirs_exist_ok (main envT fsEmpty).fs (walletDir envT)).1
    (by decide)

/-- C9 counterexample: there is a failing run whose standard output is
not empty: the announcement line was printed before the failing step. -/
theorem claim_silent_failure_cex :
    (main envT fsBlocked).err ≠ none ∧
    (main envT fsBlocked).out ≠ [] := by
  decide

/-- C9 amended: when a filesystem step fails, exactly one line, the
initial announcement, has been written to standard output; the two
confirmation lines are not emitted on a failing run. -/
theorem claim_failure_output (env : Env) (fs : FS)
    (h : (main env fs).err ≠ none) :
    (main env fs).out = [startMsg] :=
  main_err_out env fs h

theorem claim_failure_output_witness :
    (main envT fsBlocked).err ≠ none ∧
    (main envT fsBlocked).out = [startMsg] :=
  ⟨by decide, claim_failure_output envT fsBlocked (by decide)⟩

/-- C10: when the home directory cannot be resolved from the environment,
expanduser returns the tilde path unchanged, and a successful run has
created a directory literally named tilde with the fixed subpath below
it, holding the mnemonic file with the MNEMONIC contents. -/
theorem claim_tilde_fallback (fs : FS)
    (h : (main ⟨none⟩ fs).err = none) :
    expanduser ⟨none⟩ relTail = "~" :: relTail ∧
    (main ⟨none⟩ fs).fs.entries ["~", ".dig", "wallets", "test-wallet"] =
      some Entry.dir ∧
    (main ⟨none⟩ fs).fs.entries
        ["~", ".dig", "wallets", "test-wallet", "mnemonic.txt"] =
      some (Entry.file MNEMONIC) := by
  obtain ⟨hdirs, hfile, -⟩ := main_ok_final_entries ⟨none⟩ fs h
  exact ⟨rfl,
    hdirs _ (self_mem_initSegs _ (walletDir_ne_nil ⟨none⟩)), hfile⟩

theorem claim_tilde_fallback_witness :
    (main ⟨none⟩ fsEmpty).err = none ∧
    (expanduser ⟨none⟩ relTail = "~" :: relTail ∧
     (main ⟨none⟩ fsEmpty).fs.entries ["~", ".dig", "wallets", "test-wallet"] =
       some Entry.dir ∧
     (main ⟨none⟩ fsEmpty).fs.entries
         ["~", ".dig", "wallets", "test-wallet", "mnemonic.txt"] =
       some (Entry.file MNEMONIC)) :=
  ⟨by decide, claim_tilde_fallback fsEmpty (by decide)⟩

end ImportWallet
